import Mathlib

/-!
Verification of the PearBot plugin manager (`src/index.ts`, class
`PearBotManager`) against its natural-language specification.

The TypeScript source is shallowly embedded:

* the incremental NDJSON line reassembly of `readOutputStream` is embedded
  over `List Char` (the `TextDecoder` with `stream: true` guarantees that
  decoding byte chunks piecewise yields a partition of the decoded
  character stream, so character-level chunks model byte-level chunks);
* the regular-expression annotation extractor `parseNotification` is
  embedded as an executable leftmost-match scanner that is equivalent to
  the backtracking semantics of the source regex
  `<pearbot\s+status="(\w+)"(?:\s+phase="([^"]*)")?>([\s\S]*?)<\/pearbot>`;
* the manager itself is embedded as a pure state-transition system over a
  `ManagerState` record; external non-determinism (wall-clock time, OS
  port probes, spawned-process exit codes, the filesystem-derived serve
  command) is passed in as explicit parameters; ISO timestamp strings are
  modelled as natural numbers of milliseconds.
-/

namespace PearBot

/-! ## Character classes (JavaScript `\s`, `\w`, `String.trim`) -/

/-- JavaScript regex `\s` (and the `String.prototype.trim` character set):
ASCII whitespace plus the Unicode space separators, line separators and BOM. -/
def wsChar (c : Char) : Bool :=
  c = ' ' || c = '\t' || c = '\n' || c = '\r' || c = '\x0B' || c = '\x0C' ||
  c = '\u00A0' || c = '\u1680' || ('\u2000' ≤ c && c ≤ '\u200A') ||
  c = '\u2028' || c = '\u2029' || c = '\u202F' || c = '\u205F' ||
  c = '\u3000' || c = '\uFEFF'

/-- JavaScript regex `\w`: `[A-Za-z0-9_]` (no Unicode flag on the source regex). -/
def wordChar (c : Char) : Bool :=
  ('a' ≤ c && c ≤ 'z') || ('A' ≤ c && c ≤ 'Z') || ('0' ≤ c && c ≤ '9') || c = '_'

/-- JavaScript `String.prototype.trim`: drop leading and trailing whitespace. -/
def trimChars (l : List Char) : List Char :=
  ((l.dropWhile wsChar).reverse.dropWhile wsChar).reverse

/-! ## C1 — incremental line reassembly (`readOutputStream`, lines 816-881)

`project.outputBuffer += decoder.decode(value, {stream: true})`;
`const lines = project.outputBuffer.split("\n")`;
`project.outputBuffer = lines.pop() || ""`; every complete line is then
processed (blank lines skipped, each remaining line JSON-parsed,
parse failures silently discarded). -/

/-- JavaScript `s.split("\n")` over the character list: always non-empty,
a trailing newline yields a trailing empty fragment. -/
def splitNl : List Char → List (List Char)
  | [] => [[]]
  | c :: rest =>
    if c = '\n' then [] :: splitNl rest
    else
      match splitNl rest with
      | [] => [[c]]
      | l :: ls => (c :: l) :: ls

/-- Last element of a list of lines, `[]` for the empty list
(JavaScript `lines.pop() || ""`). -/
def lastD : List (List Char) → List Char
  | [] => []
  | [x] => x
  | _ :: y :: t => lastD (y :: t)

/-- Merge a retained buffer into the head of a line list. -/
def consHead (p : List Char) : List (List Char) → List (List Char)
  | [] => [p]
  | h :: t => (p ++ h) :: t

/-- One iteration of the `readOutputStream` loop: append the decoded chunk
to the buffer, split on the newline character, emit every complete line and
retain the final (possibly incomplete) fragment. -/
def processChunk (buf chunk : List Char) : List (List Char) × List Char :=
  let ls := splitNl (buf ++ chunk)
  (ls.dropLast, lastD ls)

/-- Feed a sequence of chunks one at a time through the reader, starting
from the given buffer; returns all emitted complete lines in order and the
final buffer. -/
def processChunks (buf : List Char) : List (List Char) → List (List Char) × List Char
  | [] => ([], buf)
  | c :: cs =>
    let r1 := processChunk buf c
    let r2 := processChunks r1.2 cs
    (r1.1 ++ r2.1, r2.2)

/-- Per-line record processing of `readOutputStream`: skip blank lines
(`if (!line.trim()) continue`), parse the rest, silently discard parse
failures (`catch {}`); `parse` abstracts `JSON.parse` plus the message
dispatch. -/
def parseRecords {α : Type} (parse : List Char → Option α) (ls : List (List Char)) : List α :=
  ls.filterMap (fun line => if (trimChars line).isEmpty then none else parse line)

/-! ## C2 — annotation extraction (`parseNotification`, lines 911-922)

The source matches
`/<pearbot\s+status="(\w+)"(?:\s+phase="([^"]*)")?>([\s\S]*?)<\/pearbot>/`
against the block text and, on a match, returns
`{status: match[1], phase: match[2] || undefined, content: match[3].trim()}`.
`String.prototype.match` without the global flag returns the leftmost
match; the lazy `([\s\S]*?)` stops at the first occurrence of the closing
tag.  The matcher below is a deterministic implementation of exactly that
semantics: each regex element is followed by a character the element's
class cannot match (`\s+` by `s`/`p`, `\w+` and `[^"]*` by `"`), so
maximal munch coincides with the backtracking search, and a
fully-matched-but-unclosed optional phase group leaves whitespace in
front of the required `>`, failing the position exactly as the regex does. -/

/-- Notification extracted from an agent text block (type
`ProjectNotification` of the source; the source casts `match[1]` to the
status union without validation, so status is a plain string). -/
structure ProjectNotification where
  status : String
  phase : Option String
  content : String
deriving DecidableEq, Repr

/-- Raw regex captures over character lists, before the source's
`|| undefined` / `.trim()` post-processing. -/
structure RawMatch where
  status : List Char
  phase : Option (List Char)
  content : List Char
deriving DecidableEq, Repr

def openTagLit : List Char := "<pearbot".data

def statusAttrLit : List Char := "status=\"".data

def phaseAttrLit : List Char := "phase=\"".data

def closeTag : List Char := "</pearbot>".data

/-- Match a literal, returning the remainder on success. -/
def lit : List Char → List Char → Option (List Char)
  | [], s => some s
  | _ :: _, [] => none
  | c :: cs, d :: ds => if d = c then lit cs ds else none

/-- Maximal munch of one-or-more characters satisfying `p`
(regex `\s+` / `\w+` followed by a character outside the class). -/
def takeWhile1 (p : Char → Bool) (s : List Char) : Option (List Char × List Char) :=
  if s.takeWhile p = [] then none else some (s.takeWhile p, s.dropWhile p)

/-- Split at the first occurrence of the closing tag
(the lazy `([\s\S]*?)<\/pearbot>`). -/
def findClose : List Char → Option (List Char × List Char)
  | [] => none
  | c :: rest =>
    match lit closeTag (c :: rest) with
    | some after => some ([], after)
    | none =>
      match findClose rest with
      | some (pre, after) => some (c :: pre, after)
      | none => none

/-- The optional phase group `(?:\s+phase="([^"]*)")?`. -/
def parsePhase (s : List Char) : Option (List Char × List Char) :=
  (takeWhile1 wsChar s).bind fun x =>
    (lit phaseAttrLit x.2).bind fun s7 =>
      (lit ['"'] (s7.dropWhile (fun c => c != '"'))).map fun s9 =>
        (s7.takeWhile (fun c => c != '"'), s9)

/-- Match the whole source regex anchored at the start of `s`. -/
def matchAt (s : List Char) : Option RawMatch :=
  (lit openTagLit s).bind fun s1 =>
  (takeWhile1 wsChar s1).bind fun x1 =>
  (lit statusAttrLit x1.2).bind fun s3 =>
  (takeWhile1 wordChar s3).bind fun x2 =>
  (lit ['"'] x2.2).bind fun s5 =>
  match parsePhase s5 with
  | some (ph, s9) =>
    (lit ['>'] s9).bind fun s10 =>
    (findClose s10).map fun y => { status := x2.1, phase := some ph, content := y.1 }
  | none =>
    (lit ['>'] s5).bind fun s10 =>
    (findClose s10).map fun y => { status := x2.1, phase := none, content := y.1 }

/-- Leftmost match: try every start position left to right. -/
def scanFrom : List Char → Option RawMatch
  | [] => none
  | c :: rest =>
    match matchAt (c :: rest) with
    | some m => some m
    | none => scanFrom rest

/-- Post-processing of the source: `match[2] || undefined` turns an empty
phase capture into `undefined`; `match[3].trim()` trims the content. -/
def rawToNotification (m : RawMatch) : ProjectNotification :=
  { status := String.mk m.status
    phase := match m.phase with
      | some p => if p = [] then none else some (String.mk p)
      | none => none
    content := String.mk (trimChars m.content) }

/-- The pure extraction function `parseNotification(text)` of the source. -/
def parseNotification (text : String) : Option ProjectNotification :=
  (scanFrom text.data).map rawToNotification

/-- Modelled from the spec: "a tagged span carrying a required status
keyword, an optional phase keyword, and enclosed free text" starting at
the head of `s` — the specification-side characterisation of a well-formed
annotation, to be compared with the matcher derived from the source. -/
def IsTaggedSpanFrom (s : List Char) : Prop :=
  ∃ ws1 st phasePart content rest,
    s = openTagLit ++ ws1 ++ statusAttrLit ++ st ++ ['"'] ++ phasePart ++ ['>'] ++
        content ++ closeTag ++ rest ∧
    ws1 ≠ [] ∧ (∀ c ∈ ws1, wsChar c = true) ∧
    st ≠ [] ∧ (∀ c ∈ st, wordChar c = true) ∧
    (phasePart = [] ∨
      ∃ ws2 ph, phasePart = ws2 ++ phaseAttrLit ++ ph ++ ['"'] ∧
        ws2 ≠ [] ∧ (∀ c ∈ ws2, wsChar c = true) ∧ (∀ c ∈ ph, c ≠ '"'))

/-- A text contains a well-formed tagged span somewhere. -/
def hasTaggedSpan (t : List Char) : Prop := ∃ i, IsTaggedSpanFrom (t.drop i)

/-! ## Data model (`types.ts` usage in `manager.ts`)

`ProjectStatus` is the source's string union; timestamps (`createdAt`,
`updatedAt`, `waitingSince`, the sweep's `Date.now()`) are modelled as
milliseconds; process handles are modelled as numeric pids handed out by
a `nextPid` counter; the key-ordered JavaScript `Map`s are modelled as
association lists. -/

inductive ProjectStatus
  | creating
  | building
  | waiting_for_input
  | serving
  | completed
  | failed
  | stopped
deriving DecidableEq, Repr

/-- The `ProjectMetadata` record of the source (process handles as pids,
`outputBuffer` as a character list). -/
structure ProjectMetadata where
  id : String
  name : String
  description : String
  techStack : Option String
  status : ProjectStatus
  directory : String
  createdAt : Nat
  updatedAt : Nat
  waitingSince : Option Nat
  lastNotification : Option ProjectNotification
  servingPort : Option Nat
  serverProcess : Option Nat
  agentProcess : Option Nat
  sessionId : Option String
  outputBuffer : List Char
deriving DecidableEq, Repr

/-- One row of the `pearbot_projects` table: exactly the columns written
by `saveProject` (lines 1125-1140). -/
structure SavedRow where
  id : String
  name : String
  description : String
  techStack : Option String
  status : ProjectStatus
  directory : String
  servingPort : Option Nat
  sessionId : Option String
  createdAt : Nat
  updatedAt : Nat
  waitingSince : Option Nat
  lastNotification : Option ProjectNotification
deriving DecidableEq, Repr

/-- `saveProject`: upsert the project's persisted columns. -/
def toRow (p : ProjectMetadata) : SavedRow :=
  { id := p.id, name := p.name, description := p.description, techStack := p.techStack,
    status := p.status, directory := p.directory, servingPort := p.servingPort,
    sessionId := p.sessionId, createdAt := p.createdAt, updatedAt := p.updatedAt,
    waitingSince := p.waitingSince, lastNotification := p.lastNotification }

/-- JavaScript `x || null` on an optional string: the empty string is falsy. -/
def emptyToNone (o : Option String) : Option String :=
  o.bind (fun t => if t = "" then none else some t)

/-- Row-to-record mapping of `init` (lines 438-462): an in-flight stored
status (`building`/`creating`) is coerced to `stopped`, every other status
is kept; no process handles are attached; `(row.serving_port as number) ||
null` also nulls a zero port. -/
def loadRow (row : SavedRow) : ProjectMetadata :=
  { id := row.id, name := row.name, description := row.description,
    techStack := emptyToNone row.techStack,
    status := if row.status = ProjectStatus.building ∨ row.status = ProjectStatus.creating
      then ProjectStatus.stopped else row.status,
    directory := row.directory,
    createdAt := row.createdAt, updatedAt := row.updatedAt,
    waitingSince := row.waitingSince,
    lastNotification := row.lastNotification,
    servingPort := row.servingPort.bind (fun q => if q = 0 then none else some q),
    serverProcess := none,
    agentProcess := none,
    sessionId := emptyToNone row.sessionId,
    outputBuffer := [] }

/-! ## Association-list maps (JavaScript `Map` keyed by project id) -/

def mlookup {α : Type} : List (String × α) → String → Option α
  | [], _ => none
  | (k', v) :: t, k => if k' = k then some v else mlookup t k

/-- `Map.set`: replace the existing entry in place, else append. -/
def minsert {α : Type} : List (String × α) → String → α → List (String × α)
  | [], k, v => [(k, v)]
  | (k', v') :: t, k, v => if k' = k then (k, v) :: t else (k', v') :: minsert t k v

/-- `Map.delete`. -/
def merase {α : Type} (l : List (String × α)) (k : String) : List (String × α) :=
  l.filter (fun e => e.1 != k)

/-- `Set.add` on the allocated-port set. -/
def addPort (l : List Nat) (q : Nat) : List Nat :=
  if q ∈ l then l else q :: l

/-- `Set.delete` on the allocated-port set. -/
def delPort (l : List Nat) (q : Nat) : List Nat :=
  l.filter (fun r => r != q)

/-! ## Manager state (fields of `PearBotManager`, lines 368-398)

`pendingServerExits` models the `proc.exited.then(...)` cleanup callback
registered by `serveProject` (lines 686-697) for a preview process that
has not yet exited: killing a process does not unregister its callback,
it merely makes the exit (and hence the callback) happen soon after. -/

structure ManagerState where
  projects : List (String × ProjectMetadata)
  agentProcesses : List (String × Nat)
  serverProcesses : List (String × Nat)
  allocatedPorts : List Nat
  db : List (String × SavedRow)
  pendingServerExits : List (Nat × String × Nat)
  nextPid : Nat
  maxConcurrentBuilds : Nat
  portRangeStart : Nat
  portRangeEnd : Nat
  publicHost : String
  projectsDir : String
deriving Repr

/-- Typed error taxonomy carried by the source's thrown `Error` messages. -/
inductive PErr
  | notFound (id : String)
  | capacity (maxBuilds : Nat)
  | noAgent (id : String)
  | noPorts
  | serveStartupFailure (code : Int) (cmd : String)
deriving DecidableEq, Repr

/-! ## Operations of `PearBotManager` -/

/-- `getRunningCount` (lines 1030-1036). -/
def getRunningCount (s : ManagerState) : Nat :=
  s.projects.countP (fun e =>
    e.2.status == ProjectStatus.building || e.2.status == ProjectStatus.creating)

/-- `killAgentProcess` (lines 1038-1046): best-effort kill, drop the
process-table entry, null the record's handle. -/
def killAgentProcess (s : ManagerState) (projectId : String) : ManagerState :=
  let s1 := { s with agentProcesses := merase s.agentProcesses projectId }
  match mlookup s1.projects projectId with
  | none => s1
  | some p =>
    { s1 with projects := minsert s1.projects projectId { p with agentProcess := none } }

/-- `killServerProcess` (lines 1048-1060): additionally release the
project's port from the reserved set (`if (project.servingPort)` — a
truthiness test, so a zero port is not deleted) and null the record's
port and handle.  Does not persist. -/
def killServerProcess (s : ManagerState) (projectId : String) : ManagerState :=
  let s1 := { s with serverProcesses := merase s.serverProcesses projectId }
  match mlookup s1.projects projectId with
  | none => s1
  | some p =>
    let ports := match p.servingPort with
      | some q => if q = 0 then s1.allocatedPorts else delPort s1.allocatedPorts q
      | none => s1.allocatedPorts
    { s1 with allocatedPorts := ports,
              projects := minsert s1.projects projectId
                { p with servingPort := none, serverProcess := none } }

/-- `spawnAgent` (lines 736-801): spawn the `claude` subprocess (a fresh
pid), record it in the process table and on the record, then — after the
settle delay and the first prompt write — set the status to `building`
and persist.  The registered exit watcher is modelled separately as
`onAgentExit`. -/
def spawnAgent (s : ManagerState) (projectId : String) (now : Nat) : ManagerState :=
  match mlookup s.projects projectId with
  | none => s
  | some p =>
    let pid := s.nextPid
    let p1 := { p with agentProcess := some pid }
    let s1 := { s with nextPid := pid + 1,
                       agentProcesses := minsert s.agentProcesses projectId pid,
                       projects := minsert s.projects projectId p1 }
    let p2 := { p1 with status := ProjectStatus.building, updatedAt := now }
    { s1 with projects := minsert s1.projects projectId p2,
              db := minsert s1.db projectId (toRow p2) }

/-- `createProject` (lines 469-512): capacity check, fresh record in
status `creating`, persist, spawn the agent, return `creating`.
`newId` abstracts the `proj_${Date.now()}_${random}` generator. -/
def createProject (s : ManagerState) (newId name description : String)
    (techStack : Option String) (now : Nat) :
    Except PErr (String × ProjectStatus) × ManagerState :=
  if s.maxConcurrentBuilds ≤ getRunningCount s then
    (Except.error (PErr.capacity s.maxConcurrentBuilds), s)
  else
    let p : ProjectMetadata :=
      { id := newId, name := name, description := description, techStack := techStack,
        status := ProjectStatus.creating,
        directory := s.projectsDir ++ "/" ++ newId,
        createdAt := now, updatedAt := now, waitingSince := none,
        lastNotification := none, servingPort := none, serverProcess := none,
        agentProcess := none, sessionId := none, outputBuffer := [] }
    let s1 := { s with projects := minsert s.projects newId p,
                       db := minsert s.db newId (toRow p) }
    (Except.ok (newId, ProjectStatus.creating), spawnAgent s1 newId now)

/-- `openProject` (lines 516-554): unknown id fails; any existing agent is
killed first; then the same capacity admission as `createProject`; then
status `building`, persist, spawn a fresh agent. -/
def openProject (s : ManagerState) (projectId task : String) (now : Nat) :
    Except PErr ProjectStatus × ManagerState :=
  match mlookup s.projects projectId with
  | none => (Except.error (PErr.notFound projectId), s)
  | some _ =>
    let s1 := if (mlookup s.agentProcesses projectId).isSome
      then killAgentProcess s projectId else s
    if s1.maxConcurrentBuilds ≤ getRunningCount s1 then
      (Except.error (PErr.capacity s1.maxConcurrentBuilds), s1)
    else
      match mlookup s1.projects projectId with
      | none => (Except.error (PErr.notFound projectId), s1)
      | some p =>
        let p2 := { p with status := ProjectStatus.building, updatedAt := now }
        let s2 := { s1 with projects := minsert s1.projects projectId p2,
                            db := minsert s1.db projectId (toRow p2) }
        (Except.ok ProjectStatus.building, spawnAgent s2 projectId now)

/-- `sendToProject` (lines 558-584): unknown id fails; no attached agent
process fails; otherwise write the reply to the agent's stdin, set status
`building`, clear `waitingSince`, persist. -/
def sendToProject (s : ManagerState) (projectId message : String) (now : Nat) :
    Except PErr ProjectStatus × ManagerState :=
  match mlookup s.projects projectId with
  | none => (Except.error (PErr.notFound projectId), s)
  | some p =>
    match mlookup s.agentProcesses projectId with
    | none => (Except.error (PErr.noAgent projectId), s)
    | some _ =>
      let p2 := { p with status := ProjectStatus.building, waitingSince := none,
                         updatedAt := now }
      (Except.ok ProjectStatus.building,
        { s with projects := minsert s.projects projectId p2,
                 db := minsert s.db projectId (toRow p2) })

/-- `stopProject` (lines 623-635): unknown id returns `{stopped: false}`
without error; otherwise kill both process classes, set status `stopped`,
persist, return `{stopped: true}`. -/
def stopProject (s : ManagerState) (projectId : String) (now : Nat) :
    Bool × ManagerState :=
  match mlookup s.projects projectId with
  | none => (false, s)
  | some _ =>
    let s1 := killServerProcess (killAgentProcess s projectId) projectId
    match mlookup s1.projects projectId with
    | none => (false, s1)
    | some p =>
      let p2 := { p with status := ProjectStatus.stopped, updatedAt := now }
      (true, { s1 with projects := minsert s1.projects projectId p2,
                       db := minsert s1.db projectId (toRow p2) })

/-- Scan loop of `findAvailablePort` (lines 1062-1069) over the remaining
range length; `free` is the OS bind probe `testPort`. -/
def scanPorts (allocated : List Nat) (free : Nat → Bool) : Nat → Nat → Option Nat
  | _, 0 => none
  | lo, n + 1 =>
    if lo ∈ allocated then scanPorts allocated free (lo + 1) n
    else if free lo then some lo
    else scanPorts allocated free (lo + 1) n

/-- `findAvailablePort`: ascending scan of the configured range, skipping
logically reserved ports, probing the rest. -/
def findAvailablePort (s : ManagerState) (free : Nat → Bool) : Option Nat :=
  scanPorts s.allocatedPorts free s.portRangeStart (s.portRangeEnd + 1 - s.portRangeStart)

/-- The `proc.exited.then(...)` cleanup handler registered by a successful
`serveProject` (lines 686-697), with its captured `projectId` and `port`:
unconditionally release the captured port and delete the project's
preview-process entry; if the project is still `serving`, move it to
`completed` with the port cleared and persist. -/
def serverExitCallback (s : ManagerState) (projectId : String) (port : Nat) (now : Nat) :
    ManagerState :=
  let s1 := { s with allocatedPorts := delPort s.allocatedPorts port,
                     serverProcesses := merase s.serverProcesses projectId }
  match mlookup s1.projects projectId with
  | none => s1
  | some p =>
    if p.status = ProjectStatus.serving then
      let p2 := { p with status := ProjectStatus.completed, servingPort := none,
                         updatedAt := now }
      { s1 with projects := minsert s1.projects projectId p2,
                db := minsert s1.db projectId (toRow p2) }
    else s1

/-- Deliver the asynchronous exit of the preview process with pid `pid`:
run its registered cleanup callback (a promise resolves once). -/
def fireServerExit (s : ManagerState) (pid : Nat) (now : Nat) : ManagerState :=
  match s.pendingServerExits.find? (fun e => e.1 == pid) with
  | some e =>
    serverExitCallback
      { s with pendingServerExits := s.pendingServerExits.filter (fun x => x.1 != pid) }
      e.2.1 e.2.2 now
  | none => s

/-- `serveProject` (lines 639-708): unknown id fails; kill any previous
preview server (releasing its port); allocate a port (`NoPortsAvailable`
when exhausted); reserve it; spawn the command (`command` or the
filesystem-detected `detectedCmd`) with a fresh pid; race exit against
the 3-second grace window (`earlyExit = some code` models an exit inside
the window): an early exit releases the port, drops the process entry,
marks the project `failed`, persists and fails with the exit code and the
attempted command; otherwise the cleanup callback is registered, the
project becomes `serving` on that port and is persisted. -/
def serveProject (s : ManagerState) (projectId : String) (command : Option String)
    (detectedCmd : String) (free : Nat → Bool) (earlyExit : Option Int) (now : Nat) :
    Except PErr (Nat × String) × ManagerState :=
  match mlookup s.projects projectId with
  | none => (Except.error (PErr.notFound projectId), s)
  | some _ =>
    let s1 := killServerProcess s projectId
    match findAvailablePort s1 free with
    | none => (Except.error PErr.noPorts, s1)
    | some port =>
      let cmd := command.getD detectedCmd
      let pid := s1.nextPid
      let s3 := { s1 with allocatedPorts := addPort s1.allocatedPorts port,
                          nextPid := pid + 1,
                          serverProcesses := minsert s1.serverProcesses projectId pid }
      match earlyExit with
      | some code =>
        match mlookup s3.projects projectId with
        | none => (Except.error (PErr.serveStartupFailure code cmd), s3)
        | some pr =>
          let p2 := { pr with status := ProjectStatus.failed, updatedAt := now }
          (Except.error (PErr.serveStartupFailure code cmd),
            { s3 with allocatedPorts := delPort s3.allocatedPorts port,
                      serverProcesses := merase s3.serverProcesses projectId,
                      projects := minsert s3.projects projectId p2,
                      db := minsert s3.db projectId (toRow p2) })
      | none =>
        let s4 := { s3 with pendingServerExits :=
          (pid, projectId, port) :: s3.pendingServerExits }
        match mlookup s4.projects projectId with
        | none => (Except.error (PErr.notFound projectId), s4)
        | some pr =>
          let p2 := { pr with status := ProjectStatus.serving, servingPort := some port,
                              updatedAt := now }
          let host := if s.publicHost = "" then "localhost" else s.publicHost
          let protocol := if s.publicHost = "" then "http" else "https"
          (Except.ok (port, protocol ++ "://" ++ host ++ ":" ++ toString port),
            { s4 with projects := minsert s4.projects projectId p2,
                      db := minsert s4.db projectId (toRow p2) })

/-- The agent exit watcher registered by `spawnAgent` (lines 772-785):
drop the process-table entry, null the record's handle, and — only when
the project was in flight (`building`/`creating`) — set `completed` on
exit code 0 and `failed` on any nonzero code; always persist. -/
def onAgentExit (s : ManagerState) (projectId : String) (exitCode : Int) (now : Nat) :
    ManagerState :=
  let s1 := { s with agentProcesses := merase s.agentProcesses projectId }
  match mlookup s1.projects projectId with
  | none => s1
  | some p =>
    let p1 := { p with agentProcess := none }
    let p2 := if p1.status = ProjectStatus.building ∨ p1.status = ProjectStatus.creating
      then { p1 with
        status := if exitCode = 0 then ProjectStatus.completed else ProjectStatus.failed,
        updatedAt := now }
      else { p1 with updatedAt := now }
    { s1 with projects := minsert s1.projects projectId p2,
              db := minsert s1.db projectId (toRow p2) }

/-- Annotation application inside `readOutputStream` (lines 841-858):
record the notification and the update time, then branch on the status
keyword (`success` → `completed`, `failed` → `failed`, `clarify` →
`waiting_for_input` with `waitingSince` set; anything else, e.g.
`progress`, changes neither status nor `waitingSince`). -/
def applyNotification (p : ProjectMetadata) (n : ProjectNotification) (now : Nat) :
    ProjectMetadata :=
  let p1 := { p with lastNotification := some n, updatedAt := now }
  if n.status = "success" then
    { p1 with status := ProjectStatus.completed, waitingSince := none }
  else if n.status = "failed" then
    { p1 with status := ProjectStatus.failed, waitingSince := none }
  else if n.status = "clarify" then
    { p1 with status := ProjectStatus.waiting_for_input, waitingSince := some now }
  else p1

/-- State-level effect of one extracted annotation in `readOutputStream`:
apply it to the project record and persist (`saveProject`). -/
def handleNotification (s : ManagerState) (projectId : String) (n : ProjectNotification)
    (now : Nat) : ManagerState :=
  match mlookup s.projects projectId with
  | none => s
  | some p =>
    let p2 := applyNotification p n now
    { s with projects := minsert s.projects projectId p2,
             db := minsert s.db projectId (toRow p2) }

/-- `STALLED_AGENT_TIMEOUT_MS` (line 361). -/
def STALLED_AGENT_TIMEOUT_MS : Nat := 60 * 60 * 1000

/-- The notification synthesized by the stall sweep (lines 1012-1015). -/
def timedOutNotification : ProjectNotification :=
  { status := "failed", phase := none, content := "Agent timed out after 1 hour" }

/-- One iteration of the stall sweep's `for` loop
(`startStalledCheckInterval`, lines 999-1026) on the entry `e`: if the
project is in flight with a live agent attached and `now - createdAt`
exceeds the timeout, kill the agent (inlined `killAgentProcess` effect on
the same record), mark it `failed` with the synthesized notification and
persist; otherwise leave the state unchanged. -/
def sweepOne (now : Nat) (acc : ManagerState) (e : String × ProjectMetadata) :
    ManagerState :=
  if (e.2.status = ProjectStatus.building ∨ e.2.status = ProjectStatus.creating)
      ∧ (mlookup acc.agentProcesses e.1).isSome = true
      ∧ now - e.2.createdAt > STALLED_AGENT_TIMEOUT_MS then
    let p2 := { e.2 with agentProcess := none,
                         status := ProjectStatus.failed,
                         lastNotification := some timedOutNotification,
                         updatedAt := now }
    { acc with agentProcesses := merase acc.agentProcesses e.1,
               projects := minsert acc.projects e.1 p2,
               db := minsert acc.db e.1 (toRow p2) }
  else acc

/-- The whole stall sweep: iterate over all project entries. -/
def stalledSweep (s : ManagerState) (now : Nat) : ManagerState :=
  s.projects.foldl (sweepOne now) s

/-! ## Concrete states (witnesses and the C7 execution trace) -/

/-- A minimal project record for concrete runs. -/
def sampleProject (id : String) (st : ProjectStatus) : ProjectMetadata :=
  { id := id, name := "n", description := "d", techStack := none, status := st,
    directory := "projects/" ++ id, createdAt := 0, updatedAt := 0, waitingSince := none,
    lastNotification := none, servingPort := none, serverProcess := none,
    agentProcess := none, sessionId := none, outputBuffer := [] }

/-- A manager with the default settings (`maxConcurrentBuilds` 3, port
range 4000-4999) and no projects. -/
def emptyState : ManagerState :=
  { projects := [], agentProcesses := [], serverProcesses := [], allocatedPorts := [],
    db := [], pendingServerExits := [], nextPid := 0, maxConcurrentBuilds := 3,
    portRangeStart := 4000, portRangeEnd := 4999, publicHost := "", projectsDir := "projects" }

/-- C7 trace, step 0: two completed projects `A` and `B`, nothing running. -/
def c7State0 : ManagerState :=
  { emptyState with projects :=
      [("A", sampleProject "A" ProjectStatus.completed),
       ("B", sampleProject "B" ProjectStatus.completed)] }

/-- C7 trace, step 1: `serve("A")` succeeds and allocates port 4000
(preview process pid 0; its exit callback is now registered). -/
def c7State1 : ManagerState :=
  (serveProject c7State0 "A" (some "npm start") "npm start" (fun _ => true) none 10).2

/-- C7 trace, step 2: `stop("A")` kills the preview process (pid 0) and
releases port 4000; the killed process has not yet been reaped, so its
exit callback is still pending. -/
def c7State2 : ManagerState := (stopProject c7State1 "A" 20).2

/-- C7 trace, step 3: `serve("B")` succeeds and is allocated the now-free
port 4000 (the OS probe passes: pid 0's listener is already closed while
the process is still dying). -/
def c7State3 : ManagerState :=
  (serveProject c7State2 "B" (some "npm start") "npm start" (fun _ => true) none 30).2

/-- C7 trace, step 4: the killed preview process of `A` (pid 0) finally
exits and its registered callback runs, with its captured port 4000. -/
def c7State4 : ManagerState := fireServerExit c7State3 0 40

/-- A clarify annotation, as extracted by `parseNotification`. -/
def exClarify : ProjectNotification :=
  { status := "clarify", phase := none, content := "Which database?" }

/-- Witness state: one `building` project `P` with a live agent (pid 7). -/
def wsBuilding : ManagerState :=
  { emptyState with projects := [("P", sampleProject "P" ProjectStatus.building)],
                    agentProcesses := [("P", 7)] }

/-- Witness state: capacity 1 with one `building` project (at the limit). -/
def wsFull : ManagerState :=
  { emptyState with maxConcurrentBuilds := 1,
                    projects := [("P", sampleProject "P" ProjectStatus.building)] }

/-- Witness state: capacity 1 with nothing running (one below the limit). -/
def wsOneFree : ManagerState := { emptyState with maxConcurrentBuilds := 1 }

/-- Witness state: one `completed` project `S`, nothing running. -/
def wsServe : ManagerState :=
  { emptyState with projects := [("S", sampleProject "S" ProjectStatus.completed)] }

/-- Witness state for the stall sweep: project `X` was created at time 0,
has a live agent (pid 3), and was updated moments ago (time 3700000) with
a fresh progress annotation — yet the sweep measures from `createdAt`. -/
def wsStalled : ManagerState :=
  { emptyState with
      projects := [("X",
        { sampleProject "X" ProjectStatus.building with
            updatedAt := 3700000,
            lastNotification := some
              { status := "progress", phase := some "coding", content := "still going" } })],
      agentProcesses := [("X", 3)] }

/-- Witness state: a `serving` project `Q` with a live agent (pid 1), a
preview process (pid 2) and port 4005 reserved. -/
def wsServing : ManagerState :=
  { emptyState with
      projects := [("Q", { sampleProject "Q" ProjectStatus.serving with
        servingPort := some 4005 })],
      agentProcesses := [("Q", 1)],
      serverProcesses := [("Q", 2)],
      allocatedPorts := [4005] }

end PearBot

namespace PearBot

/-! ## Theorems: C1 -/

theorem splitNl_ne_nil (s : List Char) : splitNl s ≠ [] := by
  cases s with
  | nil => simp [splitNl]
  | cons c rest =>
    simp only [splitNl]
    split
    · simp
    · split <;> simp

theorem splitNl_cons_ne (c : Char) (hc : ¬ c = '\n') (s : List Char) :
    splitNl (c :: s) = match splitNl s with
      | [] => [[c]]
      | l :: ls => (c :: l) :: ls := by
  simp [splitNl, hc]

theorem splitNl_cons_nl (s : List Char) : splitNl ('\n' :: s) = [] :: splitNl s := by
  simp [splitNl]

theorem lastD_cons_cons (x y : List Char) (t : List (List Char)) :
    lastD (x :: y :: t) = lastD (y :: t) := rfl

theorem lastD_append (l1 l2 : List (List Char)) (h : l2 ≠ []) :
    lastD (l1 ++ l2) = lastD l2 := by
  induction l1 with
  | nil => rfl
  | cons x t ih =>
    cases t with
    | nil =>
      cases l2 with
      | nil => exact absurd rfl h
      | cons y u => rfl
    | cons y u =>
      have e : (x :: y :: u) ++ l2 = x :: y :: (u ++ l2) := rfl
      rw [e, lastD_cons_cons]
      exact ih

theorem dropLast_append_ne (l1 l2 : List (List Char)) (h : l2 ≠ []) :
    (l1 ++ l2).dropLast = l1 ++ l2.dropLast := by
  induction l1 with
  | nil => rfl
  | cons x t ih =>
    have hne : t ++ l2 ≠ [] := by
      intro e
      rcases List.append_eq_nil.mp e with ⟨-, e2⟩
      exact h e2
    cases he : t ++ l2 with
    | nil => exact absurd he hne
    | cons y u =>
      calc ((x :: t) ++ l2).dropLast = (x :: (t ++ l2)).dropLast := rfl
        _ = x :: (t ++ l2).dropLast := by rw [he]; rfl
        _ = x :: (t ++ l2.dropLast) := by rw [ih]
        _ = (x :: t) ++ l2.dropLast := rfl

theorem consHead_ne_nil (p : List Char) (l : List (List Char)) : consHead p l ≠ [] := by
  cases l <;> simp [consHead]

theorem splitNl_append (a b : List Char) :
    splitNl (a ++ b) = (splitNl a).dropLast ++ consHead (lastD (splitNl a)) (splitNl b) := by
  induction a with
  | nil =>
    cases hb : splitNl b with
    | nil => exact absurd hb (splitNl_ne_nil b)
    | cons h t =>
      show splitNl ([] ++ b) = _
      rw [List.nil_append, hb]
      rfl
  | cons c a ih =>
    by_cases hc : c = '\n'
    · subst hc
      rw [List.cons_append, splitNl_cons_nl, ih, splitNl_cons_nl]
      cases ha : splitNl a with
      | nil => exact absurd ha (splitNl_ne_nil a)
      | cons h t => rfl
    · rw [List.cons_append, splitNl_cons_ne c hc, ih, splitNl_cons_ne c hc]
      cases ha : splitNl a with
      | nil => exact absurd ha (splitNl_ne_nil a)
      | cons h t =>
        cases t with
        | nil =>
          cases hb : splitNl b with
          | nil => exact absurd hb (splitNl_ne_nil b)
          | cons h2 t2 => simp [consHead, lastD, List.cons_append]
        | cons y u =>
          simp only [List.dropLast_cons₂, lastD_cons_cons, List.cons_append]

theorem splitNl_no_newline (s : List Char) (h : '\n' ∉ s) : splitNl s = [s] := by
  induction s with
  | nil => rfl
  | cons c t ih =>
    have hc : ¬ c = '\n' := fun e => h (by rw [e]; exact List.mem_cons_self _ _)
    rw [splitNl_cons_ne c hc, ih (fun m => h (List.mem_cons_of_mem c m))]

theorem no_newline_lastD_splitNl (s : List Char) : '\n' ∉ lastD (splitNl s) := by
  induction s with
  | nil => simp [splitNl, lastD]
  | cons c t ih =>
    by_cases hc : c = '\n'
    · subst hc
      rw [splitNl_cons_nl]
      cases ha : splitNl t with
      | nil => exact absurd ha (splitNl_ne_nil t)
      | cons h u =>
        rw [lastD_cons_cons]
        rw [ha] at ih
        exact ih
    · rw [splitNl_cons_ne c hc]
      cases ha : splitNl t with
      | nil => exact absurd ha (splitNl_ne_nil t)
      | cons h u =>
        rw [ha] at ih
        cases u with
        | nil =>
          simp only [lastD] at ih ⊢
          intro hm
          rcases List.mem_cons.mp hm with h1 | h2
          · exact hc h1.symm
          · exact ih h2
        | cons y v =>
          rw [lastD_cons_cons]
          rw [lastD_cons_cons] at ih
          exact ih

theorem processChunks_eq (cs : List (List Char)) :
    ∀ buf : List Char, '\n' ∉ buf → processChunks buf cs = processChunk buf cs.flatten := by
  induction cs with
  | nil =>
    intro buf hb
    simp [processChunks, processChunk, List.flatten, splitNl_no_newline buf hb, lastD]
  | cons c cs ih =>
    intro buf hb
    have hS : '\n' ∉ lastD (splitNl (buf ++ c)) := no_newline_lastD_splitNl (buf ++ c)
    have h1 : processChunks buf (c :: cs) =
        ((splitNl (buf ++ c)).dropLast ++ (processChunks (lastD (splitNl (buf ++ c))) cs).1,
         (processChunks (lastD (splitNl (buf ++ c))) cs).2) := rfl
    rw [h1, ih _ hS]
    have hjoin : (c :: cs).flatten = c ++ cs.flatten := rfl
    rw [hjoin]
    have hassoc : buf ++ (c ++ cs.flatten) = (buf ++ c) ++ cs.flatten := (List.append_assoc buf c cs.flatten).symm
    have hSP : splitNl (lastD (splitNl (buf ++ c)) ++ cs.flatten) =
        consHead (lastD (splitNl (buf ++ c))) (splitNl cs.flatten) := by
      rw [splitNl_append, splitNl_no_newline _ hS]
      rfl
    have hS' : splitNl (lastD (splitNl (buf ++ c)) ++ cs.flatten) ≠ [] := splitNl_ne_nil _
    show ((splitNl (buf ++ c)).dropLast ++ (splitNl (lastD (splitNl (buf ++ c)) ++ cs.flatten)).dropLast,
          lastD (splitNl (lastD (splitNl (buf ++ c)) ++ cs.flatten)))
        = ((splitNl (buf ++ (c ++ cs.flatten))).dropLast, lastD (splitNl (buf ++ (c ++ cs.flatten))))
    rw [hassoc, splitNl_append (buf ++ c) cs.flatten, ← hSP,
        dropLast_append_ne _ _ hS', lastD_append _ _ hS']

/-- C1: For every character stream and every partition of it into chunks,
feeding the chunks one at a time through the incremental line-reassembly
reader of `readOutputStream` emits exactly the same sequence of complete
lines — and hence the same sequence of parsed protocol records, in the
same order — as feeding the whole stream as a single chunk, with the same
retained final fragment in the buffer. -/
theorem readOutputStream_chunk_invariance (α : Type) (parse : List Char → Option α)
    (chunks : List (List Char)) :
    processChunks [] chunks = processChunk [] chunks.flatten ∧
    parseRecords parse (processChunks [] chunks).1 =
      parseRecords parse (processChunk [] chunks.flatten).1 := by
  have h := processChunks_eq chunks [] (by simp)
  exact ⟨h, by rw [h]⟩

/-! ## Theorems: C2 -/

theorem lit_append (l r : List Char) : lit l (l ++ r) = some r := by
  induction l with
  | nil => rfl
  | cons c cs ih => simp [lit, ih]

theorem lit_eq_some : ∀ {l s r : List Char}, lit l s = some r → s = l ++ r := by
  intro l
  induction l with
  | nil =>
    intro s r h
    simp [lit] at h
    simp [h]
  | cons c cs ih =>
    intro s r h
    cases s with
    | nil => simp [lit] at h
    | cons d ds =>
      simp only [lit] at h
      split at h
      · next hd =>
        rw [List.cons_append, ← ih h, hd]
      · exact absurd h (by simp)

theorem lit_single (c : Char) (r : List Char) : lit [c] (c :: r) = some r := by
  simp [lit]

theorem mem_takeWhile_true {p : Char → Bool} : ∀ {l : List Char} {c : Char},
    c ∈ l.takeWhile p → p c = true := by
  intro l
  induction l with
  | nil => intro c h; simp at h
  | cons a t ih =>
    intro c h
    rw [List.takeWhile_cons] at h
    by_cases ha : p a = true
    · rw [if_pos ha] at h
      rcases List.mem_cons.mp h with h1 | h2
      · rwa [h1]
      · exact ih h2
    · rw [if_neg ha] at h
      simp at h

theorem takeWhile1_eq_some {p : Char → Bool} {s t r : List Char}
    (h : takeWhile1 p s = some (t, r)) :
    s = t ++ r ∧ t ≠ [] ∧ ∀ c ∈ t, p c = true := by
  unfold takeWhile1 at h
  split at h
  · exact absurd h (by simp)
  · next hne =>
    simp only [Option.some.injEq, Prod.mk.injEq] at h
    obtain ⟨ht, hr⟩ := h
    refine ⟨?_, ?_, ?_⟩
    · rw [← ht, ← hr, List.takeWhile_append_dropWhile]
    · rw [← ht]; exact hne
    · intro c hc
      rw [← ht] at hc
      exact mem_takeWhile_true hc

theorem takeWhile_append_head_false {p : Char → Bool} (a : List Char) (c : Char) (b : List Char)
    (ha : ∀ x ∈ a, p x = true) (hc : p c = false) :
    (a ++ c :: b).takeWhile p = a ∧ (a ++ c :: b).dropWhile p = c :: b := by
  induction a with
  | nil => simp [List.takeWhile_cons, List.dropWhile_cons, hc]
  | cons y t ih =>
    have hy : p y = true := ha y (List.mem_cons_self _ _)
    have iht := ih (fun x hx => ha x (List.mem_cons_of_mem _ hx))
    simp [List.takeWhile_cons, List.dropWhile_cons, hy, iht.1, iht.2]

theorem takeWhile1_append {p : Char → Bool} (a : List Char) (c : Char) (b : List Char)
    (ha0 : a ≠ []) (ha : ∀ x ∈ a, p x = true) (hc : p c = false) :
    takeWhile1 p (a ++ c :: b) = some (a, c :: b) := by
  have h := takeWhile_append_head_false a c b ha hc
  unfold takeWhile1
  rw [h.1, h.2]
  simp [ha0]

theorem takeWhile1_head_false {p : Char → Bool} (c : Char) (b : List Char) (hc : p c = false) :
    takeWhile1 p (c :: b) = none := by
  unfold takeWhile1
  simp [List.takeWhile_cons, hc]

theorem closeTag_ne_nil : closeTag ≠ [] := by decide

theorem findClose_eq_some : ∀ {s pre after : List Char},
    findClose s = some (pre, after) → s = pre ++ closeTag ++ after ∧ ¬ closeTag <:+: pre := by
  intro s
  induction s with
  | nil => intro pre after h; simp [findClose] at h
  | cons c rest ih =>
    intro pre after h
    rw [findClose] at h
    cases hlit : lit closeTag (c :: rest) with
    | some after0 =>
      rw [hlit] at h
      simp only [Option.some.injEq, Prod.mk.injEq] at h
      obtain ⟨hpre, haft⟩ := h
      subst hpre haft
      constructor
      · simpa using lit_eq_some hlit
      · simp [closeTag_ne_nil]
    | none =>
      rw [hlit] at h
      cases hfc : findClose rest with
      | none => rw [hfc] at h; exact absurd h (by simp)
      | some y =>
        obtain ⟨pre0, after0⟩ := y
        rw [hfc] at h
        simp only [Option.some.injEq, Prod.mk.injEq] at h
        obtain ⟨hpre, haft⟩ := h
        subst hpre haft
        obtain ⟨hrest, hni⟩ := ih hfc
        constructor
        · rw [List.cons_append, List.cons_append, ← hrest]
        · intro hin
          rcases List.infix_cons_iff.mp hin with hp | hi
          · have h1 : (c :: pre0) <+: (c :: rest) := by
              rw [show c :: rest = (c :: pre0) ++ (closeTag ++ after0) from by
                simp [hrest, List.append_assoc]]
              exact List.prefix_append _ _
            obtain ⟨r, hr⟩ := hp.trans h1
            rw [← hr, lit_append] at hlit
            exact absurd hlit (by simp)
          · exact hni hi

theorem findClose_of_infix : ∀ (s : List Char), closeTag <:+: s →
    ∃ pre after, findClose s = some (pre, after) := by
  intro s
  induction s with
  | nil =>
    intro h
    rw [List.infix_nil] at h
    exact absurd h closeTag_ne_nil
  | cons c rest ih =>
    intro h
    cases hlit : lit closeTag (c :: rest) with
    | some after => exact ⟨[], after, by rw [findClose, hlit]⟩
    | none =>
      rcases List.infix_cons_iff.mp h with hp | hi
      · obtain ⟨r, hr⟩ := hp
        rw [← hr, lit_append] at hlit
        exact absurd hlit (by simp)
      · obtain ⟨pre, after, hfc⟩ := ih hi
        exact ⟨c :: pre, after, by rw [findClose, hlit, hfc]⟩

theorem parsePhase_eq_some {s ph r : List Char} (h : parsePhase s = some (ph, r)) :
    ∃ ws2, s = ws2 ++ phaseAttrLit ++ ph ++ ['"'] ++ r ∧ ws2 ≠ [] ∧
      (∀ c ∈ ws2, wsChar c = true) ∧ ∀ c ∈ ph, c ≠ '"' := by
  unfold parsePhase at h
  rw [Option.bind_eq_some] at h
  obtain ⟨x, htw, h⟩ := h
  rw [Option.bind_eq_some] at h
  obtain ⟨s7, hlit7, h⟩ := h
  rw [Option.map_eq_some'] at h
  obtain ⟨s9, hlit9, hres⟩ := h
  have hph : s7.takeWhile (fun c => c != '"') = ph := congrArg Prod.fst hres
  have hr : s9 = r := congrArg Prod.snd hres
  obtain ⟨hsx, hxne, hxws⟩ := takeWhile1_eq_some htw
  refine ⟨x.1, ?_, hxne, hxws, ?_⟩
  · have h7 : x.2 = phaseAttrLit ++ s7 := lit_eq_some hlit7
    have h9 : s7.dropWhile (fun c => c != '"') = ['"'] ++ s9 := lit_eq_some hlit9
    have h57 : s7 = ph ++ ['"'] ++ s9 := by
      conv_lhs => rw [← List.takeWhile_append_dropWhile (p := fun c => c != '"') (l := s7)]
      rw [hph, h9, List.append_assoc]
    rw [hsx, h7, h57, hr]
    simp [List.append_assoc]
  · intro c hc
    rw [← hph] at hc
    have := mem_takeWhile_true hc
    simpa using this

theorem matchAt_spec {s : List Char} {m : RawMatch} (h : matchAt s = some m) :
    IsTaggedSpanFrom s ∧ ¬ closeTag <:+: m.content := by
  unfold matchAt at h
  rw [Option.bind_eq_some] at h
  obtain ⟨s1, hlit1, h⟩ := h
  rw [Option.bind_eq_some] at h
  obtain ⟨x1, htw1, h⟩ := h
  rw [Option.bind_eq_some] at h
  obtain ⟨s3, hlit3, h⟩ := h
  rw [Option.bind_eq_some] at h
  obtain ⟨x2, htw2, h⟩ := h
  rw [Option.bind_eq_some] at h
  obtain ⟨s5, hlit5, h⟩ := h
  have hs1 : s = openTagLit ++ s1 := lit_eq_some hlit1
  obtain ⟨hs1e, hw1ne, hw1⟩ := takeWhile1_eq_some (p := wsChar) (by rw [htw1])
  have hs3 : x1.2 = statusAttrLit ++ s3 := lit_eq_some hlit3
  obtain ⟨hs3e, hstne, hst⟩ := takeWhile1_eq_some (p := wordChar) (by rw [htw2])
  have hs5 : x2.2 = ['"'] ++ s5 := lit_eq_some hlit5
  cases hph : parsePhase s5 with
  | some y =>
    obtain ⟨ph, s9⟩ := y
    rw [hph] at h
    rw [Option.bind_eq_some] at h
    obtain ⟨s10, hlit10, h⟩ := h
    rw [Option.map_eq_some'] at h
    obtain ⟨y2, hfc, hm⟩ := h
    obtain ⟨hfce, hfcn⟩ := findClose_eq_some hfc
    obtain ⟨ws2, hs5e, hw2ne, hw2, hphq⟩ := parsePhase_eq_some hph
    have hs9 : s9 = ['>'] ++ s10 := lit_eq_some hlit10
    constructor
    · refine ⟨x1.1, x2.1, ws2 ++ phaseAttrLit ++ ph ++ ['"'], y2.1, y2.2,
        ?_, hw1ne, hw1, hstne, hst, Or.inr ⟨ws2, ph, rfl, hw2ne, hw2, hphq⟩⟩
      rw [hs1, hs1e, hs3, hs3e, hs5, hs5e, hs9, hfce]
      simp [List.append_assoc]
    · rw [← hm]
      exact hfcn
  | none =>
    rw [hph] at h
    rw [Option.bind_eq_some] at h
    obtain ⟨s10, hlit10, h⟩ := h
    rw [Option.map_eq_some'] at h
    obtain ⟨y2, hfc, hm⟩ := h
    obtain ⟨hfce, hfcn⟩ := findClose_eq_some hfc
    have hs5g : s5 = ['>'] ++ s10 := lit_eq_some hlit10
    constructor
    · refine ⟨x1.1, x2.1, [], y2.1, y2.2,
        ?_, hw1ne, hw1, hstne, hst, Or.inl rfl⟩
      rw [hs1, hs1e, hs3, hs3e, hs5, hs5g, hfce]
      simp [List.append_assoc]
    · rw [← hm]
      exact hfcn

theorem takeWhile1_ws_statusAttr (a Y : List Char) (ha0 : a ≠ []) (ha : ∀ x ∈ a, wsChar x = true) :
    takeWhile1 wsChar (a ++ (statusAttrLit ++ Y)) = some (a, statusAttrLit ++ Y) := by
  have e : statusAttrLit ++ Y = 's' :: ("tatus=\"".data ++ Y) := rfl
  rw [e]
  exact takeWhile1_append a 's' _ ha0 ha (by decide)

theorem takeWhile1_ws_phaseAttr (a Y : List Char) (ha0 : a ≠ []) (ha : ∀ x ∈ a, wsChar x = true) :
    takeWhile1 wsChar (a ++ (phaseAttrLit ++ Y)) = some (a, phaseAttrLit ++ Y) := by
  have e : phaseAttrLit ++ Y = 'p' :: ("hase=\"".data ++ Y) := rfl
  rw [e]
  exact takeWhile1_append a 'p' _ ha0 ha (by decide)

theorem parsePhase_head_gt (W : List Char) : parsePhase ('>' :: W) = none := by
  unfold parsePhase
  rw [takeWhile1_head_false (p := wsChar) '>' W (by decide)]
  rfl

theorem parsePhase_span (ws2 ph W : List Char) (hw2ne : ws2 ≠ [])
    (hw2 : ∀ c ∈ ws2, wsChar c = true) (hph : ∀ c ∈ ph, c ≠ '"') :
    parsePhase (ws2 ++ (phaseAttrLit ++ (ph ++ ('"' :: W)))) = some (ph, W) := by
  have hq : ∀ x ∈ ph, (x != '"') = true := fun x hx => by simpa using hph x hx
  have h := takeWhile_append_head_false (p := fun c => c != '"') ph '"' W hq (by decide)
  simp only [parsePhase, takeWhile1_ws_phaseAttr ws2 _ hw2ne hw2, Option.some_bind,
    lit_append, h.1, h.2, lit_single, Option.map_some']

theorem matchAt_of_span {s : List Char} (h : IsTaggedSpanFrom s) : (matchAt s).isSome := by
  obtain ⟨ws1, st, phasePart, content, rest, hs, hw1ne, hw1, hstne, hst, hph⟩ := h
  subst hs
  rcases hph with hnone | ⟨ws2, ph, hpp, hw2ne, hw2, hphq⟩
  · subst hnone
    have e : openTagLit ++ ws1 ++ statusAttrLit ++ st ++ ['"'] ++ [] ++ ['>'] ++
          content ++ closeTag ++ rest
        = openTagLit ++ (ws1 ++ (statusAttrLit ++ (st ++
            ('"' :: ('>' :: (content ++ (closeTag ++ rest))))))) := by
      simp [List.append_assoc]
    rw [e]
    obtain ⟨pre, after, hfc⟩ :=
      findClose_of_infix (content ++ (closeTag ++ rest)) ⟨content, rest, by simp⟩
    simp only [matchAt, lit_append, Option.some_bind,
      takeWhile1_ws_statusAttr ws1 _ hw1ne hw1,
      takeWhile1_append st '"' _ hstne hst (by decide), lit_single,
      parsePhase_head_gt, hfc, Option.map_some', Option.isSome_some]
  · subst hpp
    have e : openTagLit ++ ws1 ++ statusAttrLit ++ st ++ ['"'] ++
          (ws2 ++ phaseAttrLit ++ ph ++ ['"']) ++ ['>'] ++ content ++ closeTag ++ rest
        = openTagLit ++ (ws1 ++ (statusAttrLit ++ (st ++
            ('"' :: (ws2 ++ (phaseAttrLit ++ (ph ++
              ('"' :: ('>' :: (content ++ (closeTag ++ rest))))))))))) := by
      simp [List.append_assoc]
    rw [e]
    obtain ⟨pre, after, hfc⟩ :=
      findClose_of_infix (content ++ (closeTag ++ rest)) ⟨content, rest, by simp⟩
    simp only [matchAt, lit_append, Option.some_bind,
      takeWhile1_ws_statusAttr ws1 _ hw1ne hw1,
      takeWhile1_append st '"' _ hstne hst (by decide), lit_single,
      parsePhase_span ws2 ph _ hw2ne hw2 hphq, hfc, Option.map_some', Option.isSome_some]

theorem matchAt_nil : matchAt [] = none := by decide

theorem scanFrom_eq_some : ∀ {t : List Char} {m : RawMatch}, scanFrom t = some m →
    ∃ i, matchAt (t.drop i) = some m ∧ ∀ j, j < i → matchAt (t.drop j) = none := by
  intro t
  induction t with
  | nil => intro m h; simp [scanFrom] at h
  | cons c rest ih =>
    intro m h
    rw [scanFrom] at h
    cases hm : matchAt (c :: rest) with
    | some m0 =>
      rw [hm] at h
      simp only [Option.some.injEq] at h
      subst h
      refine ⟨0, ?_, fun j hj => absurd hj (Nat.not_lt_zero j)⟩
      rw [List.drop_zero]
      exact hm
    | none =>
      rw [hm] at h
      obtain ⟨i, hi, hlt⟩ := ih h
      refine ⟨i + 1, by rw [List.drop_succ_cons]; exact hi, ?_⟩
      intro j hj
      cases j with
      | zero => rw [List.drop_zero]; exact hm
      | succ k =>
        rw [List.drop_succ_cons]
        exact hlt k (Nat.lt_of_succ_lt_succ hj)

theorem scanFrom_isSome_of : ∀ {t : List Char} {i : Nat},
    (matchAt (t.drop i)).isSome → (scanFrom t).isSome := by
  intro t
  induction t with
  | nil =>
    intro i h
    rw [List.drop_nil, matchAt_nil] at h
    simp at h
  | cons c rest ih =>
    intro i h
    rw [scanFrom]
    cases hm : matchAt (c :: rest) with
    | some m => simp
    | none =>
      cases i with
      | zero =>
        rw [List.drop_zero, hm] at h
        simp at h
      | succ k =>
        rw [List.drop_succ_cons] at h
        exact ih h

theorem trimChars_isInfix (l : List Char) : trimChars l <:+: l := by
  unfold trimChars
  have h1 : l.dropWhile wsChar <:+ l := List.dropWhile_suffix wsChar
  have h2 : (l.dropWhile wsChar).reverse.dropWhile wsChar <:+ (l.dropWhile wsChar).reverse :=
    List.dropWhile_suffix wsChar
  have h3 := h2.reverse
  rw [List.reverse_reverse] at h3
  exact h3.isInfix.trans h1.isInfix

/-- C2: `parseNotification` is a pure function from a text block to an
optional notification.  It returns a notification exactly when the text
contains a well-formed tagged span (required status keyword, optional
phase keyword, enclosed free text); at most one annotation is extracted —
the one at the leftmost matching position, every earlier position failing
to match — the match is non-greedy, so the extracted content stops before
its own closing tag and never contains one; and for any text with no
well-formed tagged span (malformed and unterminated tags included) it
returns `none`. -/
theorem parseNotification_correct (text : String) :
    ((parseNotification text).isSome ↔ hasTaggedSpan text.data) ∧
    (∀ pn, parseNotification text = some pn →
      ∃ i m, matchAt (text.data.drop i) = some m ∧ pn = rawToNotification m ∧
        (∀ j, j < i → matchAt (text.data.drop j) = none) ∧
        ¬ closeTag <:+: pn.content.data) := by
  constructor
  · constructor
    · intro h
      rw [parseNotification, Option.isSome_map'] at h
      rw [Option.isSome_iff_exists] at h
      obtain ⟨m, hm⟩ := h
      obtain ⟨i, hi, -⟩ := scanFrom_eq_some hm
      exact ⟨i, (matchAt_spec hi).1⟩
    · intro h
      obtain ⟨i, hspan⟩ := h
      rw [parseNotification, Option.isSome_map']
      exact scanFrom_isSome_of (matchAt_of_span hspan)
  · intro pn hpn
    rw [parseNotification, Option.map_eq_some'] at hpn
    obtain ⟨m, hm, hpnm⟩ := hpn
    obtain ⟨i, hi, hfirst⟩ := scanFrom_eq_some hm
    refine ⟨i, m, hi, hpnm.symm, hfirst, ?_⟩
    have hng := (matchAt_spec hi).2
    have hdata : pn.content.data = trimChars m.content := by
      rw [← hpnm]
      rfl
    rw [hdata]
    intro hin
    exact hng (hin.trans (trimChars_isInfix m.content))

/-- Witness for C2 at a concrete block: the annotation
`<pearbot status="clarify">Need input</pearbot>` followed by trailing text
parses to a clarify notification whose content stops at the closing tag. -/
theorem parseNotification_correct_witness :
    parseNotification "<pearbot status=\"clarify\">Need input</pearbot> and more" =
      some { status := "clarify", phase := none, content := "Need input" } ∧
    ¬ closeTag <:+:
      ({ status := "clarify", phase := none, content := "Need input" } :
        ProjectNotification).content.data := by
  refine ⟨by decide, ?_⟩
  obtain ⟨i, m, -, -, -, hni⟩ :=
    (parseNotification_correct "<pearbot status=\"clarify\">Need input</pearbot> and more").2
      { status := "clarify", phase := none, content := "Need input" } (by decide)
  exact hni

/-! ## Theorems: association-list map toolkit -/

theorem mlookup_minsert_self {α : Type} (l : List (String × α)) (k : String) (v : α) :
    mlookup (minsert l k v) k = some v := by
  induction l with
  | nil => simp [minsert, mlookup]
  | cons e t ih =>
    obtain ⟨k0, v0⟩ := e
    by_cases h0 : k0 = k
    · simp [minsert, h0, mlookup]
    · simp [minsert, h0, mlookup, ih]

theorem mlookup_minsert_ne {α : Type} (l : List (String × α)) (k k' : String) (v : α)
    (h : k' ≠ k) : mlookup (minsert l k v) k' = mlookup l k' := by
  induction l with
  | nil =>
    simp only [minsert, mlookup]
    rw [if_neg (fun e => h e.symm)]
  | cons e t ih =>
    obtain ⟨k0, v0⟩ := e
    by_cases h0 : k0 = k
    · subst h0
      simp only [minsert, if_pos rfl, mlookup]
      rw [if_neg (fun e => h e.symm), if_neg (fun e => h e.symm)]
    · simp only [minsert, if_neg h0, mlookup]
      by_cases h1 : k0 = k'
      · rw [if_pos h1, if_pos h1]
      · rw [if_neg h1, if_neg h1, ih]

theorem mlookup_merase_self {α : Type} (l : List (String × α)) (k : String) :
    mlookup (merase l k) k = none := by
  induction l with
  | nil => rfl
  | cons e t ih =>
    obtain ⟨k0, v0⟩ := e
    by_cases h0 : k0 = k
    · simpa [merase, List.filter_cons, h0] using ih
    · simp only [merase, List.filter_cons] at ih ⊢
      rw [if_pos (by simpa using h0)]
      simpa [mlookup, h0] using ih

theorem mlookup_merase_ne {α : Type} (l : List (String × α)) (k k' : String)
    (h : k' ≠ k) : mlookup (merase l k) k' = mlookup l k' := by
  induction l with
  | nil => rfl
  | cons e t ih =>
    obtain ⟨k0, v0⟩ := e
    by_cases h0 : k0 = k
    · subst h0
      simp only [merase, List.filter_cons] at ih ⊢
      rw [if_neg (by simp), mlookup, if_neg (fun e => h e.symm)]
      exact ih
    · simp only [merase, List.filter_cons] at ih ⊢
      rw [if_pos (by simpa using h0)]
      simp only [mlookup]
      by_cases h1 : k0 = k'
      · rw [if_pos h1, if_pos h1]
      · rw [if_neg h1, if_neg h1]
        exact ih

theorem countP_minsert {α : Type} (q : String × α → Bool) (l : List (String × α))
    (k : String) (v p : α) (hl : mlookup l k = some p) (hq : q (k, v) = q (k, p)) :
    (minsert l k v).countP q = l.countP q := by
  induction l with
  | nil => simp [mlookup] at hl
  | cons e t ih =>
    obtain ⟨k0, v0⟩ := e
    by_cases h0 : k0 = k
    · subst h0
      rw [mlookup, if_pos rfl] at hl
      injection hl with hl
      subst hl
      simp [minsert, List.countP_cons, hq]
    · rw [mlookup, if_neg h0] at hl
      simp only [minsert, if_neg h0, List.countP_cons, ih hl]

theorem mlookup_decomp {α : Type} : ∀ (l : List (String × α)) (k : String) (p : α),
    mlookup l k = some p →
    ∃ l1 l2, l = l1 ++ (k, p) :: l2 ∧ ∀ e ∈ l1, e.1 ≠ k := by
  intro l
  induction l with
  | nil => intro k p h; simp [mlookup] at h
  | cons e t ih =>
    intro k p h
    obtain ⟨k0, v0⟩ := e
    by_cases h0 : k0 = k
    · subst h0
      rw [mlookup, if_pos rfl] at h
      injection h with h
      subst h
      exact ⟨[], t, rfl, by simp⟩
    · rw [mlookup, if_neg h0] at h
      obtain ⟨l1, l2, he, hne⟩ := ih k p h
      refine ⟨(k0, v0) :: l1, l2, by simp [he], ?_⟩
      intro x hx
      rcases List.mem_cons.mp hx with h1 | h2
      · rw [h1]; exact h0
      · exact hne x h2

theorem keys_nodup_right {α : Type} (l1 l2 : List (String × α)) (k : String) (p : α)
    (hn : ((l1 ++ (k, p) :: l2).map Prod.fst).Nodup) : ∀ e ∈ l2, e.1 ≠ k := by
  rw [List.map_append] at hn
  have h2 := hn.of_append_right
  rw [List.map_cons, List.nodup_cons] at h2
  intro e he hk
  apply h2.1
  rw [← hk]
  exact List.mem_map.mpr ⟨e, he, rfl⟩

theorem not_mem_delPort (l : List Nat) (q : Nat) : q ∉ delPort l q := by
  intro h
  rw [delPort, List.mem_filter] at h
  simpa using h.2

/-! ## Theorems: C3 -/

/-- C3: For every project in status `building` (with a live agent
attached, as when its stream is being read), processing an annotation
whose status keyword is `clarify` sets the project's status to
`waiting_for_input` and its waiting-since timestamp to a non-null value;
a subsequent reply (`sendToProject`) on that project succeeds, sets the
status back to `building` and clears waiting-since to null. -/
theorem clarify_then_reply (s : ManagerState) (id msg : String) (p : ProjectMetadata)
    (n : ProjectNotification) (pid t1 t2 : Nat)
    (hp : mlookup s.projects id = some p)
    (hb : p.status = ProjectStatus.building)
    (hn : n.status = "clarify")
    (ha : mlookup s.agentProcesses id = some pid) :
    ∃ p1, mlookup (handleNotification s id n t1).projects id = some p1 ∧
      p1.status = ProjectStatus.waiting_for_input ∧
      p1.waitingSince = some t1 ∧ p1.waitingSince ≠ none ∧
      ∃ p2, (sendToProject (handleNotification s id n t1) id msg t2).1 =
          Except.ok ProjectStatus.building ∧
        mlookup (sendToProject (handleNotification s id n t1) id msg t2).2.projects id =
          some p2 ∧
        p2.status = ProjectStatus.building ∧ p2.waitingSince = none := by
  have hap : applyNotification p n t1 =
      { p with
          lastNotification := some n,
          updatedAt := t1,
          status := ProjectStatus.waiting_for_input,
          waitingSince := some t1 } := by
    unfold applyNotification
    rw [hn, if_neg (by decide), if_neg (by decide), if_pos rfl]
  have h1 : handleNotification s id n t1 =
      { s with
          projects := minsert s.projects id (applyNotification p n t1),
          db := minsert s.db id (toRow (applyNotification p n t1)) } := by
    unfold handleNotification
    rw [hp]
  have hp1 : mlookup (handleNotification s id n t1).projects id =
      some (applyNotification p n t1) := by
    rw [h1]
    exact mlookup_minsert_self _ _ _
  have ha1 : mlookup (handleNotification s id n t1).agentProcesses id = some pid := by
    rw [h1]
    exact ha
  refine ⟨applyNotification p n t1, hp1, ?_, ?_, ?_, ?_⟩
  · rw [hap]
  · rw [hap]
  · rw [hap]
    simp
  refine ⟨{ applyNotification p n t1 with
              status := ProjectStatus.building,
              waitingSince := none,
              updatedAt := t2 }, ?_, ?_, rfl, rfl⟩
  · unfold sendToProject
    rw [hp1, ha1]
  · unfold sendToProject
    rw [hp1, ha1]
    exact mlookup_minsert_self _ _ _

/-- Witness for C3: the concrete building project `P` with agent pid 7,
hit by a clarify annotation at time 100 and replied to at time 200. -/
theorem clarify_then_reply_witness :
    ∃ p1, mlookup (handleNotification wsBuilding "P" exClarify 100).projects "P" = some p1 ∧
      p1.status = ProjectStatus.waiting_for_input ∧
      p1.waitingSince = some 100 ∧ p1.waitingSince ≠ none ∧
      ∃ p2, (sendToProject (handleNotification wsBuilding "P" exClarify 100) "P" "use sqlite" 200).1 =
          Except.ok ProjectStatus.building ∧
        mlookup (sendToProject (handleNotification wsBuilding "P" exClarify 100) "P" "use sqlite" 200).2.projects "P" =
          some p2 ∧
        p2.status = ProjectStatus.building ∧ p2.waitingSince = none :=
  clarify_then_reply wsBuilding "P" "use sqlite" (sampleProject "P" ProjectStatus.building)
    exClarify 7 100 200 (by decide) (by decide) (by decide) (by decide)

/-! ## Theorems: C4 -/

/-- C4: For every project whose status is `building` or `creating` when
its agent process exits, exit code 0 sets the status to `completed` and
any nonzero exit code sets it to `failed`; in both cases the agent's
process-table entry is removed, the record's agent-process field is
cleared, and the updated record is persisted. -/
theorem agent_exit_transition (s : ManagerState) (id : String) (p : ProjectMetadata)
    (code : Int) (now : Nat)
    (hp : mlookup s.projects id = some p)
    (hst : p.status = ProjectStatus.building ∨ p.status = ProjectStatus.creating) :
    ∃ p2, mlookup (onAgentExit s id code now).projects id = some p2 ∧
      p2.status = (if code = 0 then ProjectStatus.completed else ProjectStatus.failed) ∧
      p2.agentProcess = none ∧
      mlookup (onAgentExit s id code now).agentProcesses id = none ∧
      mlookup (onAgentExit s id code now).db id = some (toRow p2) := by
  have h1 : onAgentExit s id code now =
      { s with
          agentProcesses := merase s.agentProcesses id,
          projects := minsert s.projects id
            { p with
                agentProcess := none,
                status := (if code = 0 then ProjectStatus.completed else ProjectStatus.failed),
                updatedAt := now },
          db := minsert s.db id (toRow
            { p with
                agentProcess := none,
                status := (if code = 0 then ProjectStatus.completed else ProjectStatus.failed),
                updatedAt := now }) } := by
    simp only [onAgentExit]
    rw [hp]
    dsimp only
    rw [if_pos hst]
  refine ⟨{ p with
              agentProcess := none,
              status := (if code = 0 then ProjectStatus.completed else ProjectStatus.failed),
              updatedAt := now }, ?_, rfl, rfl, ?_, ?_⟩
  · rw [h1]
    exact mlookup_minsert_self _ _ _
  · rw [h1]
    exact mlookup_merase_self _ _
  · rw [h1]
    exact mlookup_minsert_self _ _ _

/-- Witness for C4: the building project `P` whose agent exits with the
nonzero code 7 ends up `failed`, cleaned up and persisted. -/
theorem agent_exit_transition_witness :
    ∃ p2, mlookup (onAgentExit wsBuilding "P" 7 300).projects "P" = some p2 ∧
      p2.status = (if (7 : Int) = 0 then ProjectStatus.completed else ProjectStatus.failed) ∧
      p2.agentProcess = none ∧
      mlookup (onAgentExit wsBuilding "P" 7 300).agentProcesses "P" = none ∧
      mlookup (onAgentExit wsBuilding "P" 7 300).db "P" = some (toRow p2) :=
  agent_exit_transition wsBuilding "P" (sampleProject "P" ProjectStatus.building) 7 300
    (by decide) (by decide)

/-! ## Theorems: state-transition helper lemmas -/

theorem killAgentProcess_settings (s : ManagerState) (id : String) :
    (killAgentProcess s id).maxConcurrentBuilds = s.maxConcurrentBuilds := by
  simp only [killAgentProcess]
  cases mlookup s.projects id <;> rfl

theorem killAgentProcess_agents (s : ManagerState) (id : String) :
    (killAgentProcess s id).agentProcesses = merase s.agentProcesses id := by
  simp only [killAgentProcess]
  cases mlookup s.projects id <;> rfl

theorem killAgentProcess_servers (s : ManagerState) (id : String) :
    (killAgentProcess s id).serverProcesses = s.serverProcesses := by
  simp only [killAgentProcess]
  cases mlookup s.projects id <;> rfl

theorem killServerProcess_agents (s : ManagerState) (id : String) :
    (killServerProcess s id).agentProcesses = s.agentProcesses := by
  simp only [killServerProcess]
  cases mlookup s.projects id <;> rfl

theorem killServerProcess_servers (s : ManagerState) (id : String) :
    (killServerProcess s id).serverProcesses = merase s.serverProcesses id := by
  simp only [killServerProcess]
  cases mlookup s.projects id <;> rfl

theorem mlookup_killAgentProcess_self (s : ManagerState) (id : String) (p : ProjectMetadata)
    (hp : mlookup s.projects id = some p) :
    mlookup (killAgentProcess s id).projects id = some { p with agentProcess := none } := by
  simp only [killAgentProcess]
  rw [hp]
  exact mlookup_minsert_self _ _ _

theorem mlookup_killServerProcess_self (s : ManagerState) (id : String) (p : ProjectMetadata)
    (hp : mlookup s.projects id = some p) :
    mlookup (killServerProcess s id).projects id =
      some { p with servingPort := none, serverProcess := none } := by
  simp only [killServerProcess]
  rw [hp]
  exact mlookup_minsert_self _ _ _

theorem getRunningCount_killAgentProcess (s : ManagerState) (id : String) :
    getRunningCount (killAgentProcess s id) = getRunningCount s := by
  simp only [killAgentProcess, getRunningCount]
  cases hm : mlookup s.projects id with
  | none => rfl
  | some p => exact countP_minsert _ _ _ _ _ hm rfl

/-! ## Theorems: C5 -/

/-- C5: `createProject` fails with a capacity error exactly when the count
of projects in status `creating` or `building` has reached the configured
maximum, and succeeds when that count is one fewer; the same capacity
admission applies to `openProject` (for a known project id, whose
pre-kill running count is measured the same way because killing an agent
never changes a status). -/
theorem capacity_admission (s : ManagerState) (newId name desc oid task : String)
    (ts : Option String) (now : Nat) :
    (((createProject s newId name desc ts now).1 =
        Except.error (PErr.capacity s.maxConcurrentBuilds)) ↔
      s.maxConcurrentBuilds ≤ getRunningCount s) ∧
    (getRunningCount s = s.maxConcurrentBuilds →
      (createProject s newId name desc ts now).1 =
        Except.error (PErr.capacity s.maxConcurrentBuilds)) ∧
    (getRunningCount s + 1 = s.maxConcurrentBuilds →
      (createProject s newId name desc ts now).1 =
        Except.ok (newId, ProjectStatus.creating)) ∧
    (∀ p, mlookup s.projects oid = some p →
      ((((openProject s oid task now).1 =
          Except.error (PErr.capacity s.maxConcurrentBuilds)) ↔
        s.maxConcurrentBuilds ≤ getRunningCount s) ∧
       (getRunningCount s = s.maxConcurrentBuilds →
         (openProject s oid task now).1 =
           Except.error (PErr.capacity s.maxConcurrentBuilds)) ∧
       (getRunningCount s + 1 = s.maxConcurrentBuilds →
         (openProject s oid task now).1 = Except.ok ProjectStatus.building))) := by
  have hcreate : ∀ hres : Prop, True := fun _ => trivial
  by_cases hc : s.maxConcurrentBuilds ≤ getRunningCount s
  · have hcp : (createProject s newId name desc ts now).1 =
        Except.error (PErr.capacity s.maxConcurrentBuilds) := by
      unfold createProject
      rw [if_pos hc]
    refine ⟨⟨fun _ => hc, fun _ => hcp⟩, fun _ => hcp, fun h3 => absurd hc (by omega), ?_⟩
    intro p hp
    have hs1m : ((if (mlookup s.agentProcesses oid).isSome
        then killAgentProcess s oid else s) : ManagerState).maxConcurrentBuilds
        = s.maxConcurrentBuilds := by
      split
      · exact killAgentProcess_settings s oid
      · rfl
    have hs1c : getRunningCount ((if (mlookup s.agentProcesses oid).isSome
        then killAgentProcess s oid else s) : ManagerState) = getRunningCount s := by
      split
      · exact getRunningCount_killAgentProcess s oid
      · rfl
    have hop : (openProject s oid task now).1 =
        Except.error (PErr.capacity s.maxConcurrentBuilds) := by
      unfold openProject
      rw [hp]
      dsimp only
      rw [hs1m, hs1c, if_pos hc]
    exact ⟨⟨fun _ => hc, fun _ => hop⟩, fun _ => hop, fun h3 => absurd hc (by omega)⟩
  · have hcp : (createProject s newId name desc ts now).1 =
        Except.ok (newId, ProjectStatus.creating) := by
      unfold createProject
      rw [if_neg hc]
    refine ⟨⟨fun he => ?_, fun hle => absurd hle hc⟩,
      fun h2 => absurd (Nat.le_of_eq h2.symm) hc, fun _ => hcp, ?_⟩
    · rw [hcp] at he
      exact absurd he (by simp)
    intro p hp
    have hs1m : ((if (mlookup s.agentProcesses oid).isSome
        then killAgentProcess s oid else s) : ManagerState).maxConcurrentBuilds
        = s.maxConcurrentBuilds := by
      split
      · exact killAgentProcess_settings s oid
      · rfl
    have hs1c : getRunningCount ((if (mlookup s.agentProcesses oid).isSome
        then killAgentProcess s oid else s) : ManagerState) = getRunningCount s := by
      split
      · exact getRunningCount_killAgentProcess s oid
      · rfl
    have hq : ∃ q, mlookup ((if (mlookup s.agentProcesses oid).isSome
        then killAgentProcess s oid else s) : ManagerState).projects oid = some q := by
      split
      · exact ⟨_, mlookup_killAgentProcess_self s oid p hp⟩
      · exact ⟨p, hp⟩
    obtain ⟨q, hqe⟩ := hq
    have hop : (openProject s oid task now).1 = Except.ok ProjectStatus.building := by
      unfold openProject
      rw [hp]
      dsimp only
      rw [hs1m, hs1c, if_neg hc, hqe]
    refine ⟨⟨fun he => ?_, fun hle => absurd hle hc⟩,
      fun h2 => absurd (Nat.le_of_eq h2.symm) hc, fun _ => hop⟩
    rw [hop] at he
    exact absurd he (by simp)

/-- Witness for C5: at capacity 1 with one building project, `create`
fails with the capacity error; at capacity 1 with nothing running, it
succeeds. -/
theorem capacity_admission_witness :
    (createProject wsFull "new1" "n2" "d2" none 70).1 =
      Except.error (PErr.capacity 1) ∧
    (createProject wsOneFree "new2" "n2" "d2" none 70).1 =
      Except.ok ("new2", ProjectStatus.creating) := by
  have h1 := (capacity_admission wsFull "new1" "n2" "d2" "P" "t" none 70).2.1 (by decide)
  have h2 := (capacity_admission wsOneFree "new2" "n2" "d2" "x" "t" none 70).2.2.1 (by decide)
  exact ⟨h1, h2⟩

/-! ## Theorems: C6 -/

/-- C6: If the command launched by `serveProject` exits with any code
inside the 3-second startup grace window (`earlyExit = some code`), the
call fails with a serve-startup error carrying the exit code and the
attempted command, and afterwards the project's status is `failed` — not
`serving` — the allocated port is no longer in the reserved-port set, and
no preview-process entry remains for the project. -/
theorem serve_startup_failure (s : ManagerState) (id detected : String)
    (command : Option String) (p : ProjectMetadata) (free : Nat → Bool) (code : Int)
    (port now : Nat)
    (hp : mlookup s.projects id = some p)
    (hport : findAvailablePort (killServerProcess s id) free = some port) :
    (serveProject s id command detected free (some code) now).1 =
      Except.error (PErr.serveStartupFailure code (command.getD detected)) ∧
    port ∉ (serveProject s id command detected free (some code) now).2.allocatedPorts ∧
    mlookup (serveProject s id command detected free (some code) now).2.serverProcesses id
      = none ∧
    ∃ p2, mlookup (serveProject s id command detected free (some code) now).2.projects id
        = some p2 ∧ p2.status = ProjectStatus.failed ∧ p2.status ≠ ProjectStatus.serving := by
  have hkp := mlookup_killServerProcess_self s id p hp
  have h1 : serveProject s id command detected free (some code) now =
      (Except.error (PErr.serveStartupFailure code (command.getD detected)),
        { killServerProcess s id with
            allocatedPorts :=
              delPort (addPort (killServerProcess s id).allocatedPorts port) port,
            nextPid := (killServerProcess s id).nextPid + 1,
            serverProcesses := merase (minsert (killServerProcess s id).serverProcesses id
              (killServerProcess s id).nextPid) id,
            projects := minsert (killServerProcess s id).projects id
              { p with
                  servingPort := none,
                  serverProcess := none,
                  status := ProjectStatus.failed,
                  updatedAt := now },
            db := minsert (killServerProcess s id).db id (toRow
              { p with
                  servingPort := none,
                  serverProcess := none,
                  status := ProjectStatus.failed,
                  updatedAt := now }) }) := by
    simp only [serveProject]
    rw [hp]
    dsimp only
    rw [hport]
    dsimp only
    rw [hkp]
  refine ⟨by rw [h1], ?_, ?_, ?_⟩
  · rw [h1]
    exact not_mem_delPort _ _
  · rw [h1]
    exact mlookup_merase_self _ _
  · refine ⟨{ p with
        servingPort := none,
        serverProcess := none,
        status := ProjectStatus.failed,
        updatedAt := now }, ?_, rfl, fun h => ProjectStatus.noConfusion h⟩
    rw [h1]
    exact mlookup_minsert_self _ _ _

/-- Witness for C6: serving the completed project `S` with a command that
exits with code 127 inside the grace window. -/
theorem serve_startup_failure_witness :
    (serveProject wsServe "S" (some "npm run dev") "npm start"
        (fun _ => true) (some 127) 50).1 =
      Except.error (PErr.serveStartupFailure 127 ((some "npm run dev").getD "npm start")) ∧
    4000 ∉ (serveProject wsServe "S" (some "npm run dev") "npm start"
        (fun _ => true) (some 127) 50).2.allocatedPorts ∧
    mlookup (serveProject wsServe "S" (some "npm run dev") "npm start"
        (fun _ => true) (some 127) 50).2.serverProcesses "S" = none ∧
    ∃ p2, mlookup (serveProject wsServe "S" (some "npm run dev") "npm start"
        (fun _ => true) (some 127) 50).2.projects "S"
        = some p2 ∧ p2.status = ProjectStatus.failed ∧ p2.status ≠ ProjectStatus.serving :=
  serve_startup_failure wsServe "S" "npm start" (some "npm run dev")
    (sampleProject "S" ProjectStatus.completed) (fun _ => true) 127 4000 50
    (by decide) (by decide)

/-! ## Theorems: C8 -/

/-- C8: For every persisted project record loaded at startup, a record
whose stored status was `building` or `creating` is loaded with status
`stopped`, a record in any other status is loaded with its status
unchanged, and every loaded record has no agent process and no preview
process attached. -/
theorem init_load_normalization (row : SavedRow) :
    (loadRow row).status = (if row.status = ProjectStatus.building ∨
        row.status = ProjectStatus.creating then ProjectStatus.stopped else row.status) ∧
    (loadRow row).agentProcess = none ∧ (loadRow row).serverProcess = none :=
  ⟨rfl, rfl, rfl⟩

/-! ## Theorems: C10 -/

/-- C10: `stopProject` called with an unknown project id returns
`{stopped: false}` without raising any error, unlike `openProject`,
`sendToProject` and `serveProject`, which fail with a not-found error on
an unknown id; for every known project, regardless of its current status,
`stopProject` kills any live agent and preview process (clearing both
process-table entries and both record handles), sets the status to
`stopped`, persists the record, and returns `{stopped: true}`. -/
theorem stop_unknown_vs_known (s : ManagerState) (id task msg detected : String)
    (command : Option String) (free : Nat → Bool) (earlyExit : Option Int) (now : Nat) :
    (mlookup s.projects id = none →
      stopProject s id now = (false, s) ∧
      (openProject s id task now).1 = Except.error (PErr.notFound id) ∧
      (sendToProject s id msg now).1 = Except.error (PErr.notFound id) ∧
      (serveProject s id command detected free earlyExit now).1 =
        Except.error (PErr.notFound id)) ∧
    (∀ p, mlookup s.projects id = some p →
      (stopProject s id now).1 = true ∧
      ∃ p2, mlookup (stopProject s id now).2.projects id = some p2 ∧
        p2.status = ProjectStatus.stopped ∧
        p2.agentProcess = none ∧ p2.serverProcess = none ∧
        mlookup (stopProject s id now).2.agentProcesses id = none ∧
        mlookup (stopProject s id now).2.serverProcesses id = none ∧
        mlookup (stopProject s id now).2.db id = some (toRow p2)) := by
  constructor
  · intro hn
    refine ⟨?_, ?_, ?_, ?_⟩
    · unfold stopProject
      rw [hn]
    · unfold openProject
      rw [hn]
    · unfold sendToProject
      rw [hn]
    · unfold serveProject
      rw [hn]
  · intro p hp
    have hka := mlookup_killAgentProcess_self s id p hp
    have hks := mlookup_killServerProcess_self (killAgentProcess s id) id
      { p with agentProcess := none } hka
    have h1 : stopProject s id now = (true,
        { killServerProcess (killAgentProcess s id) id with
            projects := minsert (killServerProcess (killAgentProcess s id) id).projects id
              { p with
                  agentProcess := none,
                  servingPort := none,
                  serverProcess := none,
                  status := ProjectStatus.stopped,
                  updatedAt := now },
            db := minsert (killServerProcess (killAgentProcess s id) id).db id (toRow
              { p with
                  agentProcess := none,
                  servingPort := none,
                  serverProcess := none,
                  status := ProjectStatus.stopped,
                  updatedAt := now }) }) := by
      simp only [stopProject]
      rw [hp]
      dsimp only
      rw [hks]
    refine ⟨by rw [h1], ?_⟩
    refine ⟨{ p with
        agentProcess := none,
        servingPort := none,
        serverProcess := none,
        status := ProjectStatus.stopped,
        updatedAt := now }, ?_, rfl, rfl, rfl, ?_, ?_, ?_⟩
    · rw [h1]
      exact mlookup_minsert_self _ _ _
    · rw [h1]
      show mlookup (killServerProcess (killAgentProcess s id) id).agentProcesses id = none
      rw [killServerProcess_agents, killAgentProcess_agents]
      exact mlookup_merase_self _ _
    · rw [h1]
      show mlookup (killServerProcess (killAgentProcess s id) id).serverProcesses id = none
      rw [killServerProcess_servers]
      exact mlookup_merase_self _ _
    · rw [h1]
      exact mlookup_minsert_self _ _ _

/-- Witness for C10: stopping the unknown id `Z` reports `false` and
leaves the state untouched; stopping the serving project `Q` reports
`true` and clears both process tables. -/
theorem stop_unknown_vs_known_witness :
    stopProject wsServing "Z" 60 = (false, wsServing) ∧
    (stopProject wsServing "Q" 60).1 = true ∧
    mlookup (stopProject wsServing "Q" 60).2.agentProcesses "Q" = none ∧
    mlookup (stopProject wsServing "Q" 60).2.serverProcesses "Q" = none := by
  have hu := (stop_unknown_vs_known wsServing "Z" "t" "m" "d" none
    (fun _ => true) none 60).1 (by decide)
  have hk := (stop_unknown_vs_known wsServing "Q" "t" "m" "d" none
    (fun _ => true) none 60).2
    { sampleProject "Q" ProjectStatus.serving with servingPort := some 4005 } (by decide)
  obtain ⟨hk1, p2, -, -, -, -, hk2, hk3, -⟩ := hk
  exact ⟨hu.1, hk1, hk2, hk3⟩

/-! ## Theorems: C9 -/

theorem sweepOne_preserves (now : Nat) (acc : ManagerState) (e : String × ProjectMetadata)
    (id : String) (h : e.1 ≠ id) :
    mlookup (sweepOne now acc e).projects id = mlookup acc.projects id ∧
    mlookup (sweepOne now acc e).agentProcesses id = mlookup acc.agentProcesses id ∧
    mlookup (sweepOne now acc e).db id = mlookup acc.db id := by
  unfold sweepOne
  split
  · exact ⟨mlookup_minsert_ne _ _ _ _ (Ne.symm h),
      mlookup_merase_ne _ _ _ (Ne.symm h),
      mlookup_minsert_ne _ _ _ _ (Ne.symm h)⟩
  · exact ⟨rfl, rfl, rfl⟩

theorem foldl_sweep_preserves (now : Nat) (id : String) :
    ∀ (l : List (String × ProjectMetadata)) (acc : ManagerState),
      (∀ e ∈ l, e.1 ≠ id) →
      mlookup (l.foldl (sweepOne now) acc).projects id = mlookup acc.projects id ∧
      mlookup (l.foldl (sweepOne now) acc).agentProcesses id =
        mlookup acc.agentProcesses id ∧
      mlookup (l.foldl (sweepOne now) acc).db id = mlookup acc.db id := by
  intro l
  induction l with
  | nil => intro acc h; exact ⟨rfl, rfl, rfl⟩
  | cons e t ih =>
    intro acc h
    have h1 := sweepOne_preserves now acc e id (h e (List.mem_cons_self _ _))
    have h2 := ih (sweepOne now acc e) (fun x hx => h x (List.mem_cons_of_mem _ hx))
    exact ⟨h2.1.trans h1.1, h2.2.1.trans h1.2.1, h2.2.2.trans h1.2.2⟩

/-- C9: The stall-detection sweep fails a project based on the time
elapsed since the project's creation timestamp, not since its last update
or last notification: for every project in status `building` or
`creating` with a live agent process attached — `updatedAt` and
`lastNotification` being arbitrary, e.g. refreshed by a progress
annotation a moment before the sweep — once `now - createdAt` exceeds the
stall timeout, the sweep removes the agent from the process table, sets
the status to `failed`, stores the synthesized timed-out notification and
persists the record. -/
theorem stalled_sweep_uses_createdAt (s : ManagerState) (id : String) (p : ProjectMetadata)
    (pid now : Nat)
    (hk : (s.projects.map Prod.fst).Nodup)
    (hp : mlookup s.projects id = some p)
    (hst : p.status = ProjectStatus.building ∨ p.status = ProjectStatus.creating)
    (ha : mlookup s.agentProcesses id = some pid)
    (ht : now - p.createdAt > STALLED_AGENT_TIMEOUT_MS) :
    mlookup (stalledSweep s now).projects id = some
      { p with
          agentProcess := none,
          status := ProjectStatus.failed,
          lastNotification := some timedOutNotification,
          updatedAt := now } ∧
    mlookup (stalledSweep s now).agentProcesses id = none ∧
    mlookup (stalledSweep s now).db id = some (toRow
      { p with
          agentProcess := none,
          status := ProjectStatus.failed,
          lastNotification := some timedOutNotification,
          updatedAt := now }) := by
  obtain ⟨l1, l2, he, hl1⟩ := mlookup_decomp s.projects id p hp
  have hl2 : ∀ e ∈ l2, e.1 ≠ id := keys_nodup_right l1 l2 id p (he ▸ hk)
  unfold stalledSweep
  rw [he, List.foldl_append]
  have hpre := foldl_sweep_preserves now id l1 s hl1
  have hcond : ((id, p) : String × ProjectMetadata).2.status = ProjectStatus.building ∨
        ((id, p) : String × ProjectMetadata).2.status = ProjectStatus.creating := hst
  have hcond2 : (mlookup (List.foldl (sweepOne now) s l1).agentProcesses
      ((id, p) : String × ProjectMetadata).1).isSome = true := by
    rw [hpre.2.1, ha]
    rfl
  have hone : sweepOne now (List.foldl (sweepOne now) s l1) (id, p)
      = { List.foldl (sweepOne now) s l1 with
            agentProcesses := merase (List.foldl (sweepOne now) s l1).agentProcesses id,
            projects := minsert (List.foldl (sweepOne now) s l1).projects id
              { p with
                  agentProcess := none,
                  status := ProjectStatus.failed,
                  lastNotification := some timedOutNotification,
                  updatedAt := now },
            db := minsert (List.foldl (sweepOne now) s l1).db id (toRow
              { p with
                  agentProcess := none,
                  status := ProjectStatus.failed,
                  lastNotification := some timedOutNotification,
                  updatedAt := now }) } := by
    unfold sweepOne
    rw [if_pos ⟨hcond, hcond2, ht⟩]
  have hstep : List.foldl (sweepOne now) (List.foldl (sweepOne now) s l1) ((id, p) :: l2)
      = List.foldl (sweepOne now)
          (sweepOne now (List.foldl (sweepOne now) s l1) (id, p)) l2 := rfl
  rw [hstep]
  have hpost := foldl_sweep_preserves now id l2
    (sweepOne now (List.foldl (sweepOne now) s l1) (id, p)) hl2
  refine ⟨?_, ?_, ?_⟩
  · rw [hpost.1, hone]
    exact mlookup_minsert_self _ _ _
  · rw [hpost.2.1, hone]
    exact mlookup_merase_self _ _
  · rw [hpost.2.2, hone]
    exact mlookup_minsert_self _ _ _

/-- Witness for C9: project `X` was created at time 0 but updated a
moment ago (updatedAt 3700000, fresh progress notification); at time
3700001 the sweep still kills it, because more than an hour elapsed since
creation. -/
theorem stalled_sweep_uses_createdAt_witness :
    mlookup (stalledSweep wsStalled 3700001).agentProcesses "X" = none ∧
    (mlookup (stalledSweep wsStalled 3700001).projects "X").map
      (fun q => (q.status, q.lastNotification)) =
      some (ProjectStatus.failed, some timedOutNotification) := by
  have h := stalled_sweep_uses_createdAt wsStalled "X"
    { sampleProject "X" ProjectStatus.building with
        updatedAt := 3700000,
        lastNotification := some
          { status := "progress", phase := some "coding", content := "still going" } }
    3 3700001 (by decide) (by decide) (Or.inl rfl) (by decide) (by decide)
  refine ⟨h.2.1, ?_⟩
  rw [h.1]
  rfl

/-! ## Theorems: C7 -/

/-- C7 (a violation the code actually exhibits): run serve("A") → port
4000, stop("A") (the preview process is killed, its exit callback still
pending), serve("B") → port 4000 again, then deliver the killed process's
exit callback.  Afterwards project `B` is still `serving` with assigned
port 4000 and a live preview-process entry, yet 4000 is no longer in the
reserved-port set and `findAvailablePort` returns it again: the stale
callback of `A`'s killed preview process releases a port now owned by
`B`, contradicting the claimed reservation invariant. -/
theorem port_reservation_violation :
    (mlookup c7State4.projects "B").map (fun q => (q.status, q.servingPort)) =
      some (ProjectStatus.serving, some 4000) ∧
    (mlookup c7State4.serverProcesses "B").isSome = true ∧
    c7State4.allocatedPorts = [] ∧
    findAvailablePort c7State4 (fun _ => true) = some 4000 := by
  refine ⟨?_, ?_, ?_, ?_⟩ <;> decide

end PearBot
